import Mathlib

/-
  Verification development for the hw-app-ckb client library
  (host-side protocol layer for the Nervos CKB hardware-wallet app).

  The definitions below are a shallow embedding of src/src/index.ts.
  Bytes are modelled as Nat values below 256, byte buffers as List Nat.
  The transport capability is modelled as a function from the history of
  frames sent so far (latest frame included) to the response bytes of the
  latest frame; this makes explicit which response each returned value
  depends on.  JavaScript Buffer semantics that the source relies on are
  modelled faithfully: slice clamps to the buffer bounds, an out-of-range
  index read yields undefined (which behaves as 0 under bitwise and), and
  Buffer.fill repeats a shorter source pattern cyclically.
-/

/-- 2 to the 64th minus 1, the mask for 64-bit words used by blake2b. -/
def mask64 : Nat := 2 ^ 64 - 1

/-- Right rotation of a 64-bit word. -/
def rotr64 (x n : Nat) : Nat := ((x >>> n) ||| (x <<< (64 - n))) &&& mask64

/-- The blake2b initialization vector (RFC 7693). -/
def blakeIV : List Nat :=
  [0x6a09e667f3bcc908, 0xbb67ae8584caa73b, 0x3c6ef372fe94f82b, 0xa54ff53a5f1d36f1,
   0x510e527fade682d1, 0x9b05688c2b3e6c1f, 0x1f83d9abfb41bd6b, 0x5be0cd19137e2179]

/-- The blake2b message schedule (RFC 7693). -/
def blakeSigma : List (List Nat) :=
  [[0, 1, 2, 3, 4, 5, 6, 7, 8, 9, 10, 11, 12, 13, 14, 15],
   [14, 10, 4, 8, 9, 15, 13, 6, 1, 12, 0, 2, 11, 7, 5, 3],
   [11, 8, 12, 0, 5, 2, 15, 13, 10, 14, 3, 6, 7, 1, 9, 4],
   [7, 9, 3, 1, 13, 12, 11, 14, 2, 6, 5, 10, 4, 0, 15, 8],
   [9, 0, 5, 7, 2, 4, 10, 15, 14, 1, 11, 12, 6, 8, 3, 13],
   [2, 12, 6, 10, 0, 11, 8, 3, 4, 13, 7, 5, 15, 14, 1, 9],
   [12, 5, 1, 15, 14, 13, 4, 10, 0, 7, 6, 3, 9, 2, 8, 11],
   [13, 11, 7, 14, 12, 1, 3, 9, 5, 0, 15, 4, 8, 6, 2, 10],
   [6, 15, 14, 9, 11, 3, 0, 8, 12, 2, 13, 7, 1, 4, 10, 5],
   [10, 2, 8, 4, 7, 6, 1, 5, 15, 11, 9, 14, 3, 12, 13, 0]]

/-- The index quadruples for the eight G mixing calls of one blake2b round. -/
def blakeGIndices : List (Nat × Nat × Nat × Nat) :=
  [(0, 4, 8, 12), (1, 5, 9, 13), (2, 6, 10, 14), (3, 7, 11, 15),
   (0, 5, 10, 15), (1, 6, 11, 12), (2, 7, 8, 13), (3, 4, 9, 14)]

/-- The blake2b G mixing function acting on the 16-word working vector. -/
def blakeG (v : List Nat) (a b c d x y : Nat) : List Nat :=
  let va := (v.getD a 0 + v.getD b 0 + x) &&& mask64
  let vd := rotr64 ((v.getD d 0) ^^^ va) 32
  let vc := (v.getD c 0 + vd) &&& mask64
  let vb := rotr64 ((v.getD b 0) ^^^ vc) 24
  let va2 := (va + vb + y) &&& mask64
  let vd2 := rotr64 (vd ^^^ va2) 16
  let vc2 := (vc + vd2) &&& mask64
  let vb2 := rotr64 (vb ^^^ vc2) 63
  ((((v.set a va2).set b vb2).set c vc2).set d vd2)

/-- One blake2b round: eight G calls with message words chosen by the schedule. -/
def blakeRound (m v : List Nat) (r : Nat) : List Nat :=
  let s := blakeSigma.getD (r % 10) []
  (List.range 8).foldl
    (fun w i =>
      match blakeGIndices.getD i (0, 0, 0, 0) with
      | (a, b, c, d) => blakeG w a b c d (m.getD (s.getD (2 * i) 0) 0) (m.getD (s.getD (2 * i + 1) 0) 0))
    v

/-- Little-endian interpretation of a byte list as a natural number. -/
def le64 (bytes : List Nat) : Nat := bytes.foldr (fun b acc => acc * 256 + b) 0

/-- The 8 little-endian bytes of a 64-bit word. -/
def le64bytes (w : Nat) : List Nat :=
  [w % 256, w / 2 ^ 8 % 256, w / 2 ^ 16 % 256, w / 2 ^ 24 % 256,
   w / 2 ^ 32 % 256, w / 2 ^ 40 % 256, w / 2 ^ 48 % 256, w / 2 ^ 56 % 256]

/-- Pad a block of at most 128 bytes to exactly 128 bytes with zeros. -/
def padBlock (l : List Nat) : List Nat := l ++ List.replicate (128 - l.length) 0

/-- The 16 little-endian 64-bit message words of a 128-byte block. -/
def blockWords (block : List Nat) : List Nat :=
  (List.range 16).map (fun i => le64 ((block.drop (8 * i)).take 8))

/-- The blake2b compression function; t is the byte counter, last marks the final block. -/
def blakeCompress (h m : List Nat) (t : Nat) (last : Bool) : List Nat :=
  let v0 := h ++ blakeIV
  let v1 := v0.set 12 ((v0.getD 12 0) ^^^ (t &&& mask64))
  let v2 := if last then v1.set 14 ((v1.getD 14 0) ^^^ mask64) else v1
  let v := (List.range 12).foldl (fun w r => blakeRound m w r) v2
  (List.range 8).map (fun i => ((h.getD i 0) ^^^ (v.getD i 0)) ^^^ (v.getD (i + 8) 0))

/-- Initial blake2b state for output length outlen with a 16-byte personalization
(no key, no salt), per the RFC 7693 parameter block: the personalization occupies
parameter words 6 and 7. -/
def blake2bInit (outlen : Nat) (personal : List Nat) : List Nat :=
  [(blakeIV.getD 0 0) ^^^ (0x01010000 ||| outlen),
   blakeIV.getD 1 0, blakeIV.getD 2 0, blakeIV.getD 3 0,
   blakeIV.getD 4 0, blakeIV.getD 5 0,
   (blakeIV.getD 6 0) ^^^ le64 (personal.take 8),
   (blakeIV.getD 7 0) ^^^ le64 (personal.drop 8)]

/-- Block loop of blake2b: consume 128-byte blocks; the fuel argument is only
there to make the recursion structural and is always sufficient. -/
def blake2bLoop : Nat → List Nat → List Nat → Nat → List Nat
  | 0, h, _, _ => h
  | fuel + 1, h, msg, done =>
    if msg.length ≤ 128 then
      blakeCompress h (blockWords (padBlock msg)) (done + msg.length) true
    else
      blake2bLoop fuel (blakeCompress h (blockWords (msg.take 128)) (done + 128) false)
        (msg.drop 128) (done + 128)

/-- blake2b with output length outlen and a 16-byte personalization, as computed
by the blake2b-wasm dependency when called with (outlen, null key, null salt,
personal). -/
def blake2b (outlen : Nat) (personal msg : List Nat) : List Nat :=
  ((blake2bLoop (msg.length / 128 + 1) (blake2bInit outlen personal) msg 0).flatMap le64bytes).take outlen

/-
  bech32m, as implemented by the bech32 npm dependency (the bech32m export).
-/

/-- The bech32 data character set (the ALPHABET string of the npm package). -/
def bech32Charset : List Char := "qpzry9x8gf2tvdw0s3jn54khce6mua7l".toList

/-- The five BCH generator constants of the bech32 polymod. -/
def bech32Gen : List Nat := [0x3b6a57b2, 0x26508e6d, 0x1ea119fa, 0x3d4233dd, 0x2a1462b3]

/-- One step of the bech32 polymod checksum computation. -/
def bech32PolymodStep (chk v : Nat) : Nat :=
  let top := chk >>> 25
  let base := (((chk &&& 0x1ffffff) <<< 5) ^^^ v)
  (List.range 5).foldl (fun c i => if (top >>> i) &&& 1 = 1 then c ^^^ bech32Gen.getD i 0 else c) base

/-- The bech32 polymod of a word sequence, starting from 1. -/
def bech32Polymod (values : List Nat) : Nat := values.foldl bech32PolymodStep 1

/-- Expansion of the human-readable part for checksum purposes. -/
def bech32HrpExpand (hrp : String) : List Nat :=
  hrp.toList.map (fun c => c.toNat >>> 5) ++ [0] ++ hrp.toList.map (fun c => c.toNat &&& 31)

/-- The bech32m checksum constant, 0x2bc830a3; original bech32 uses 1 instead. -/
def bech32mConst : Nat := 0x2bc830a3

/-- The original bech32 checksum constant. -/
def bech32Const : Nat := 1

/-- Six checksum words appended to the data part, using a given final constant. -/
def bech32CreateChecksum (constant : Nat) (hrp : String) (words : List Nat) : List Nat :=
  let pm := (bech32Polymod (bech32HrpExpand hrp ++ words ++ List.replicate 6 0)) ^^^ constant
  (List.range 6).map (fun i => (pm >>> (5 * (5 - i))) &&& 31)

/-- Generic bech32-family encoding with an explicit length limit, mirroring the
encode function of the bech32 npm package: it refuses (throws, modelled as none)
when hrp length + 7 + data length exceeds the limit. -/
def bech32GenericEncode (constant : Nat) (hrp : String) (words : List Nat) (limit : Nat) :
    Option String :=
  if limit < hrp.length + 7 + words.length then none
  else
    some (hrp ++ "1" ++
      String.mk ((words ++ bech32CreateChecksum constant hrp words).map
        (fun w => bech32Charset.getD w 'q')))

/-- bech32m encoding (checksum constant 0x2bc830a3). -/
def bech32mEncode (hrp : String) (words : List Nat) (limit : Nat) : Option String :=
  bech32GenericEncode bech32mConst hrp words limit

/-- The 8-bit to 5-bit regrouping loop of the bech32 package (convert with
inBits 8, outBits 5, pad true), written with the accumulator unrolled: from an
accumulator holding the bits high bits of value, consume one byte and emit one
or two 5-bit words. The invariant bits less than 5 holds at every call. -/
def bech32ConvertAux : Nat → Nat → List Nat → List Nat
  | value, bits, [] => if 0 < bits then [(value <<< (5 - bits)) &&& 31] else []
  | value, bits, b :: rest =>
    if bits + 8 < 10 then
      ((((value <<< 8) ||| b) >>> (bits + 8 - 5)) &&& 31) ::
        bech32ConvertAux ((value <<< 8) ||| b) (bits + 8 - 5) rest
    else
      ((((value <<< 8) ||| b) >>> (bits + 8 - 5)) &&& 31) ::
        ((((value <<< 8) ||| b) >>> (bits + 8 - 10)) &&& 31) ::
          bech32ConvertAux ((value <<< 8) ||| b) (bits + 8 - 10) rest

/-- toWords of the bech32 package: regroup 8-bit bytes into 5-bit words, padding
the final partial word with zero bits. -/
def bech32ToWords (bytes : List Nat) : List Nat := bech32ConvertAux 0 0 bytes

/-
  The protocol layer of src/src/index.ts.
-/

/-- One APDU command frame as handed to transport.send. -/
structure Frame where
  cla : Nat
  ins : Nat
  p1 : Nat
  p2 : Nat
  data : List Nat
deriving Repr, DecidableEq

/-- The transport capability: maps the history of frames sent so far in the
current operation (latest frame included) to the response bytes returned for
that latest frame. -/
def Device : Type := List Frame → List Nat

/-- Synchronous failures of the client layer.  malformedPath covers a path
string rejected by BIPPath.fromString (a TypeError in the source) as well as
the RangeError thrown by a Buffer write whose value does not fit the field
(writeUInt8 with a segment count above 255, writeInt8 with a value above 127,
writeUInt32BE with a segment at or above 2 to the 32); bech32LimitExceeded is
the length-limit Error thrown by the bech32 encode function. -/
inductive CkbError where
  | malformedPath
  | bech32LimitExceeded
deriving Repr, DecidableEq

/-- Lowercase hex digits. -/
def hexDigits : List Char := "0123456789abcdef".toList

/-- Two lowercase hex characters of one byte, as Buffer.toString with hex does. -/
def byteHex (b : Nat) : String := String.mk [hexDigits.getD (b / 16) '0', hexDigits.getD (b % 16) '0']

/-- Lowercase hex string of a byte list (Buffer.toString with hex concatenates
two hex characters per byte). -/
def bytesToHex : List Nat → String
  | [] => ""
  | b :: rest => byteHex b ++ bytesToHex rest

/-- Buffer.toString with latin1: each byte becomes the character of the same
code point. -/
def toLatin1 (l : List Nat) : String := String.mk (l.map Char.ofNat)

/-- The four big-endian bytes written by writeUInt32BE for a value below 2 to
the 32. -/
def be32 (n : Nat) : List Nat := [n / 2 ^ 24 % 256, n / 2 ^ 16 % 256, n / 2 ^ 8 % 256, n % 256]

/-- A parsed BIP 32 path: the result of BIPPath.fromString(path).toPathArray(),
or none when the parser threw.  The parser itself belongs to the bip32-path
dependency, so the embedding takes its outcome as input; its successful outputs
are unsigned 32-bit segments. -/
def ParsedPath : Type := Option (List Nat)

/-- The path encoding of pathToBuffer after parsing: one length byte (writeUInt8
throws for a count above 255) followed by four big-endian bytes per segment
(writeUInt32BE throws for a segment at or above 2 to the 32). -/
def encodePathSegs (segs : List Nat) : Except CkbError (List Nat) :=
  if 255 < segs.length then .error .malformedPath
  else if segs.any (fun s => 2 ^ 32 ≤ s) then .error .malformedPath
  else .ok (segs.length :: segs.flatMap be32)

/-- pathToBuffer of the source: parse, then encode. -/
def pathToBuffer (path : ParsedPath) : Except CkbError (List Nat) :=
  match path with
  | none => .error .malformedPath
  | some segs => encodePathSegs segs

/-- Buffer.fill with a byte-pattern source over a range of the given length:
the pattern is repeated cyclically; an empty pattern zero-fills. -/
def bufferFillCyclic (src : List Nat) (len : Nat) : List Nat :=
  if src.isEmpty then List.replicate len 0
  else (List.range len).map (fun i => src.getD (i % src.length) 0)

/-- The 16 personalization bytes the source passes to Blake2b (the ASCII bytes
of the string ckb-default-hash). -/
def ckbPersonalization : List Nat :=
  [99, 107, 98, 45, 100, 101, 102, 97, 117, 108, 116, 45, 104, 97, 115, 104]

/-- The SECP256K1_BLAKE160 code hash constant of the source. -/
def secpCodeHash : List Nat :=
  [155, 215, 224, 111, 62, 207, 75, 224, 242, 252, 210, 24, 139, 35, 241, 185,
   252, 200, 142, 93, 75, 101, 168, 99, 123, 23, 114, 59, 189, 163, 204, 232]

/-- The bech32m length limit constant of the source. -/
def BECH32_LIMIT : Nat := 1023

/-- Public key compression as performed by the source: one parity byte (0x03
when bit 0 of byte 64 is set, else 0x02; an out-of-range read yields undefined,
which behaves as 0 under bitwise and), then Buffer.fill of bytes 1 to 32 of the
key into the remaining 32 positions (cyclically when fewer than 32 bytes are
available). -/
def compressPubKey (publicKey : List Nat) : List Nat :=
  let parity := if (publicKey.getD 64 0) &&& 1 = 1 then 0x03 else 0x02
  parity :: bufferFillCyclic ((publicKey.drop 1).take 32) 32

/-- First 20 bytes of the personalized blake2b-256 of the compressed key. -/
def lockArgOf (compressed : List Nat) : List Nat := (blake2b 32 ckbPersonalization compressed).take 20

/-- The addr_contents array of the source: CKB 2021 full-format prefix 0x00,
the 32-byte code hash, hash type 0x01, then the lock args. -/
def addrContents (lockArg : List Nat) : List Nat := 0x00 :: secpCodeHash ++ [0x01] ++ lockArg

/-- The human-readable prefix chosen by the testnet flag. -/
def hrpOf (testnet : Bool) : String := if testnet then "ckt" else "ckb"

/-- Result record of getWalletPublicKey. -/
structure PubKeyResult where
  publicKey : String
  lockArg : String
  address : String
deriving Repr, DecidableEq

/-- The frame sent by getWalletPublicKey. -/
def pubKeyFrame (pathBuf : List Nat) : Frame := ⟨0x80, 0x02, 0x00, 0x00, pathBuf⟩

/-- The key extraction of getWalletPublicKey: one length byte, then that many
key bytes (Buffer.slice clamps to the response bounds; a length byte read from
an empty response is undefined, which slices nothing). -/
def extractPubKey (response : List Nat) : List Nat := (response.drop 1).take (response.getD 0 0)

/-- The response processing of getWalletPublicKey: compress the extracted key,
hash it, assemble the address script and bech32m-encode it. -/
def processPubKeyResponse (testnet : Bool) (response : List Nat) : Except CkbError PubKeyResult :=
  let publicKey := extractPubKey response
  let lockArg := lockArgOf (compressPubKey publicKey)
  match bech32mEncode (hrpOf testnet) (bech32ToWords (addrContents lockArg)) BECH32_LIMIT with
  | none => .error .bech32LimitExceeded
  | some addr => .ok ⟨bytesToHex publicKey, bytesToHex lockArg, addr⟩

/-- getWalletPublicKey of the source: send the encoded path with cla 0x80 ins
0x02, then derive the result from the response.  Paired with the list of
frames actually sent. -/
def getWalletPublicKey (path : ParsedPath) (testnet : Bool) (device : Device) :
    Except CkbError PubKeyResult × List Frame :=
  match pathToBuffer path with
  | .error e => (.error e, [])
  | .ok pathBuf =>
    (processPubKeyResponse testnet (device [pubKeyFrame pathBuf]), [pubKeyFrame pathBuf])

/-- Result record of getWalletExtendedPublicKey. -/
structure XPubResult where
  public_key : String
  chain_code : String
deriving Repr, DecidableEq

/-- getWalletExtendedPublicKey of the source: same inline path encoding, cla
0x80 ins 0x04; the response is read positionally with Buffer.slice clamping.
When the index 1 + publicKeyLength is out of range the chain-code length read
yields undefined and the subsequent slice with end NaN yields an empty buffer,
hence the empty chain code in that branch. -/
def getWalletExtendedPublicKey (path : ParsedPath) (device : Device) :
    Except CkbError XPubResult × List Frame :=
  match pathToBuffer path with
  | .error e => (.error e, [])
  | .ok pathBuf =>
    let fr : Frame := ⟨0x80, 0x04, 0x00, 0x00, pathBuf⟩
    let response := device [fr]
    let publicKeyLength := response.getD 0 0
    let chainCode :=
      if 1 + publicKeyLength < response.length then
        (response.drop (2 + publicKeyLength)).take (response.getD (1 + publicKeyLength) 0)
      else []
    (.ok ⟨bytesToHex ((response.drop 1).take publicKeyLength), bytesToHex chainCode⟩, [fr])

/-- The two frames of getAppConfiguration. -/
def configFrame1 : Frame := ⟨0x80, 0x00, 0x00, 0x00, []⟩

/-- The second frame of getAppConfiguration. -/
def configFrame2 : Frame := ⟨0x80, 0x09, 0x00, 0x00, []⟩

/-- JavaScript number-or-undefined stringification of a byte read: an in-range
index prints its number, an out-of-range read prints undefined. -/
def numOrUndefined (l : List Nat) (i : Nat) : String :=
  match l.get? i with
  | some n => toString n
  | none => "undefined"

/-- getAppConfiguration of the source: two sub-requests (ins 0x00 then 0x09);
the version joins the first three bytes of the first reply with dots; the hash
is the second reply with its last three bytes dropped, decoded as latin1. -/
def getAppConfiguration (device : Device) : (String × String) × List Frame :=
  let response1 := device [configFrame1]
  let response2 := device [configFrame1, configFrame2]
  ((numOrUndefined response1 0 ++ "." ++ numOrUndefined response1 1 ++ "." ++ numOrUndefined response1 2,
    toLatin1 (response2.take (response2.length - 3))), [configFrame1, configFrame2])

/-- The frame of getWalletId. -/
def walletIdFrame : Frame := ⟨0x80, 0x01, 0x00, 0x00, []⟩

/-- getWalletId of the source: hex of the first 32 bytes of the reply
(Buffer.slice clamps, so a shorter reply is silently truncated). -/
def getWalletId (device : Device) : String × List Frame :=
  (bytesToHex ((device [walletIdFrame]).take 32), [walletIdFrame])

/-- The ASCII bytes of the magic tag prepended by signMessage
(Buffer.from of the string Nervos Message:). -/
def magicBytes : List Nat := [78, 101, 114, 118, 111, 115, 32, 77, 101, 115, 115, 97, 103, 101, 58]

/-- The maxApduSize constant of signMessage. -/
def maxApduSize : Nat := 230

/-- The init frame of signMessage: display flag byte, then the segment count
written with writeInt8, then the big-endian segments. -/
def signMsgInitFrame (displayHex : Bool) (segs : List Nat) : Frame :=
  ⟨0x80, 0x06, 0x00, 0x00, (if displayHex then 1 else 0) :: segs.length :: segs.flatMap be32⟩

/-- The continuation frames of signMessage: one frame of 230 bytes per full
chunk of the prefixed message, in order. -/
def signMsgContFrames (rawMsg : List Nat) : List Frame :=
  (List.range (rawMsg.length / maxApduSize)).map
    (fun i => ⟨0x80, 0x06, 0x01, 0x00, (rawMsg.drop (i * maxApduSize)).take maxApduSize⟩)

/-- The final frame of signMessage: the remaining bytes after the full chunks
(the slice takes at most 230 bytes starting at the last chunk offset). -/
def signMsgFinalFrame (rawMsg : List Nat) : Frame :=
  ⟨0x80, 0x06, 0x81, 0x00, (rawMsg.drop (rawMsg.length / maxApduSize * maxApduSize)).take maxApduSize⟩

/-- The full ordered frame sequence of one signMessage call. -/
def signMsgTrace (displayHex : Bool) (segs rawMsg : List Nat) : List Frame :=
  signMsgInitFrame displayHex segs :: signMsgContFrames rawMsg ++ [signMsgFinalFrame rawMsg]

/-- signMessage of the source.  The message argument is the byte sequence
obtained from hex-decoding the rawMsgHex argument (Buffer.from with hex).  The
source writes the segment count with writeInt8, which throws a RangeError for
counts above 127, before any transport call; responses to the init and
continuation frames are ignored and the signature is the hex of the first 65
bytes of the response to the final frame only. -/
def signMessage (path : ParsedPath) (msg : List Nat) (displayHex : Bool) (device : Device) :
    Except CkbError String × List Frame :=
  match path with
  | none => (.error .malformedPath, [])
  | some segs =>
    if 127 < segs.length then (.error .malformedPath, [])
    else if segs.any (fun s => 2 ^ 32 ≤ s) then (.error .malformedPath, [])
    else
      let rawMsg := magicBytes ++ msg
      let trace := signMsgTrace displayHex segs rawMsg
      (.ok (bytesToHex ((device trace).take 65)), trace)

/-- signMessageHash of the source: the encoded path with cla 0x80 ins 0x07 p1
0x00, then the whole hex-decoded digest in a single final frame with p1 0x80;
the signature is the hex of the first 65 bytes of the second response. -/
def signMessageHash (path : ParsedPath) (digest : List Nat) (device : Device) :
    Except CkbError String × List Frame :=
  match pathToBuffer path with
  | .error e => (.error e, [])
  | .ok pathBuf =>
    let f1 : Frame := ⟨0x80, 0x07, 0x00, 0x00, pathBuf⟩
    let f2 : Frame := ⟨0x80, 0x07, 0x80, 0x00, digest⟩
    (.ok (bytesToHex ((device [f1, f2]).take 65)), [f1, f2])

/-- The magic tag literal of signMessage as a string. -/
def magicString : String := "Nervos Message:"

/-- A device whose wallet-id reply is only 3 bytes long. -/
def shortIdDevice : Device := fun _ => [10, 11, 12]

/-- The configuration device of the specification example: first reply
[1, 0, 3], second reply 29 bytes followed by 0x00 0x90 0x00. -/
def configExampleDevice : Device :=
  fun h => if h.length = 1 then [1, 0, 3] else List.replicate 29 65 ++ [0, 0x90, 0]

/-- The personalization literal as a string. -/
def specPersonalString : String := "ckb-default-hash"

/-- The data part of the encoded address: the charset characters of the 5-bit
words of the address script. -/
def addressBody (lockArg : List Nat) : String :=
  String.mk ((bech32ToWords (addrContents lockArg)).map (fun w => bech32Charset.getD w 'q'))

/-- The 6 checksum characters of the encoded address; they depend on the
network prefix as well as on the script. -/
def addressChecksum (testnet : Bool) (lockArg : List Nat) : String :=
  String.mk ((bech32CreateChecksum bech32mConst (hrpOf testnet)
    (bech32ToWords (addrContents lockArg))).map (fun w => bech32Charset.getD w 'q'))

/-- The address derivation pipeline exactly as the specification words it
(section 4.3): validate that the raw key has 65 bytes (none models the
InvalidPublicKeyError failure), compress using the parity of the last byte of
the Y coordinate followed by the 32-byte X coordinate, hash with the 32-byte
blake2b personalized with the ASCII bytes of ckb-default-hash and take the
first 20 bytes as the lock arg, assemble the script 0x00, code hash, 0x01,
lock arg, and encode it with bech32m (checksum constant 0x2bc830a3, not the
original bech32 constant 1) under the 1023-character ceiling with the
network-dependent prefix. -/
def specAddressDerive (rawPublicKey : List Nat) (testnet : Bool) : Option (List Nat × String) :=
  if rawPublicKey.length = 65 then
    let x := (rawPublicKey.drop 1).take 32
    let parity := if (rawPublicKey.getD 64 0) % 2 = 0 then 0x02 else 0x03
    let compressed := parity :: x
    let lockArg := (blake2b 32 (specPersonalString.toList.map Char.toNat) compressed).take 20
    let script := 0x00 :: secpCodeHash ++ [0x01] ++ lockArg
    (bech32GenericEncode bech32mConst (hrpOf testnet) (bech32ToWords script) 1023).map
      (fun addr => (lockArg, addr))
  else none

/-- A device answering every exchange with a length byte 65 and the all-zero
65-byte uncompressed key. -/
def allZeroKeyDevice : Device := fun _ => 65 :: 0x04 :: List.replicate 64 0

/-- A device whose public-key reply carries a 64-byte key. -/
def shortKeyDevice : Device := fun _ => 64 :: List.range 64

/-- First witness key for C9: leading byte 0x04, X all ones, Y all twos. -/
def c9Key1 : List Nat := 0x04 :: (List.replicate 32 1 ++ List.replicate 32 2)

/-- Second witness key for C9: different leading byte and Y bytes, same X,
same parity of the last byte. -/
def c9Key2 : List Nat := 0x09 :: (List.replicate 32 1 ++ (List.replicate 31 7 ++ [4]))

/-
  Helper lemmas.
-/

/-- Each segment contributes exactly 4 bytes to the encoded path body. -/
theorem flatMap_be32_length (segs : List Nat) : (segs.flatMap be32).length = 4 * segs.length := by
  induction segs with
  | nil => rfl
  | cons s t ih => simp [List.flatMap_cons, be32, ih]; omega

/-- The 4 bytes at offset 4 i of the encoded path body are the big-endian bytes
of segment i. -/
theorem flatMap_be32_get (segs : List Nat) (i : Nat) (h : i < segs.length) :
    ((segs.flatMap be32).drop (4 * i)).take 4 = be32 (segs.getD i 0) := by
  induction segs generalizing i with
  | nil => simp at h
  | cons s t ih =>
    cases i with
    | zero =>
      simp only [List.flatMap_cons, Nat.mul_zero, List.drop_zero, List.getD, List.getElem?_cons_zero,
        Option.getD_some]
      exact List.take_left' (by simp [be32])
    | succ j =>
      have h4 : 4 * (j + 1) = (be32 s).length + 4 * j := by simp [be32]; omega
      simp only [List.flatMap_cons, h4, List.drop_append]
      exact ih j (by simpa using h)

/-- The hex rendering of a byte list has two characters per byte. -/
theorem bytesToHex_length (l : List Nat) : (bytesToHex l).length = 2 * l.length := by
  induction l with
  | nil => rfl
  | cons b t ih =>
    have hb : (byteHex b).length = 2 := rfl
    simp [bytesToHex, String.length_append, hb, ih]
    omega

/-- A segment list whose members are all unsigned 32-bit values never trips the
overflow check. -/
theorem any_overflow_false (segs : List Nat) (hs : ∀ s ∈ segs, s < 2 ^ 32) :
    segs.any (fun s => 2 ^ 32 ≤ s) = false := by
  simp only [List.any_eq_false, decide_eq_true_eq]
  intro x hx
  exact Nat.not_le.mpr (hs x hx)

/-- Successful path encoding for a parsed path of at most 255 unsigned 32-bit
segments. -/
theorem encodePathSegs_ok (segs : List Nat) (hn : segs.length ≤ 255)
    (hs : ∀ s ∈ segs, s < 2 ^ 32) :
    encodePathSegs segs = .ok (segs.length :: segs.flatMap be32) := by
  unfold encodePathSegs
  rw [if_neg (by omega), if_neg (by rw [any_overflow_false segs hs]; simp)]

/-- Path encoding fails when parsing failed or the segment count exceeds 255. -/
theorem pathToBuffer_error (p : ParsedPath)
    (h : p = none ∨ ∃ segs, p = some segs ∧ 255 < segs.length) :
    pathToBuffer p = .error .malformedPath := by
  rcases h with hnone | ⟨segs, hp, hlen⟩
  · rw [hnone]; rfl
  · rw [hp]
    show encodePathSegs segs = _
    unfold encodePathSegs
    rw [if_pos hlen]

/-- C5: for every path string that parses to n segments with 0 ≤ n ≤ 255, path
encoding yields a buffer of length exactly 1 + 4 n whose first byte is n
followed by each segment as 4 big-endian bytes in order; for every path string
that fails to parse or whose segment count exceeds 255, every public operation
taking a path fails with MalformedPathError before any transport call is made
(the frame trace of the failing call is empty). -/
theorem pathToBuffer_layout_and_failure (p : ParsedPath) (testnet : Bool) (device : Device)
    (msg digest : List Nat) (displayHex : Bool) :
    (∀ segs, p = some segs → segs.length ≤ 255 → (∀ s ∈ segs, s < 2 ^ 32) →
      pathToBuffer p = .ok (segs.length :: segs.flatMap be32) ∧
      (segs.length :: segs.flatMap be32).length = 1 + 4 * segs.length ∧
      (segs.length :: segs.flatMap be32).getD 0 0 = segs.length ∧
      (∀ i, i < segs.length →
        ((segs.length :: segs.flatMap be32).drop (1 + 4 * i)).take 4 = be32 (segs.getD i 0))) ∧
    ((p = none ∨ ∃ segs, p = some segs ∧ 255 < segs.length) →
      getWalletPublicKey p testnet device = (.error .malformedPath, []) ∧
      getWalletExtendedPublicKey p device = (.error .malformedPath, []) ∧
      signMessage p msg displayHex device = (.error .malformedPath, []) ∧
      signMessageHash p digest device = (.error .malformedPath, [])) := by
  constructor
  · intro segs hp hn hs
    subst hp
    refine ⟨encodePathSegs_ok segs hn hs, ?_, rfl, ?_⟩
    · rw [List.length_cons, flatMap_be32_length]; omega
    · intro i hi
      rw [Nat.add_comm 1 (4 * i), List.drop_succ_cons]
      exact flatMap_be32_get segs i hi
  · intro h
    have hpb := pathToBuffer_error p h
    refine ⟨?_, ?_, ?_, ?_⟩
    · simp [getWalletPublicKey, hpb]
    · simp [getWalletExtendedPublicKey, hpb]
    · rcases h with hnone | ⟨segs, hp, hlen⟩
      · rw [hnone]; rfl
      · rw [hp]; simp [signMessage, show 127 < segs.length by omega]
    · simp [signMessageHash, hpb]

/-- C5 witness: a concrete two-segment path encodes to the documented layout,
and a failed parse makes signMessage fail with an empty frame trace. -/
theorem pathToBuffer_layout_and_failure_witness :
    pathToBuffer (some [44, 2147483692]) = .ok [2, 0, 0, 0, 44, 128, 0, 0, 44] ∧
    signMessage none [] false (fun _ => []) = (.error .malformedPath, []) := by
  constructor
  · exact ((pathToBuffer_layout_and_failure (some [44, 2147483692]) false (fun _ => []) [] []
      false).1 [44, 2147483692] rfl (by decide) (by decide)).1
  · exact ((pathToBuffer_layout_and_failure none false (fun _ => []) [] [] false).2
      (Or.inl rfl)).2.2.1

/-- C10: for every valid path of 128 to 255 segments, signMessage fails before
any transport exchange (the source writes the segment count with writeInt8,
which rejects values above 127), while pathToBuffer, signMessageHash and
getWalletExtendedPublicKey accept the same path. -/
theorem signMessage_int8_overflow (segs msg digest : List Nat) (displayHex : Bool)
    (device : Device) (h1 : 128 ≤ segs.length) (h2 : segs.length ≤ 255)
    (hs : ∀ s ∈ segs, s < 2 ^ 32) :
    signMessage (some segs) msg displayHex device = (.error .malformedPath, []) ∧
    pathToBuffer (some segs) = .ok (segs.length :: segs.flatMap be32) ∧
    signMessageHash (some segs) digest device =
      (.ok (bytesToHex ((device [⟨0x80, 0x07, 0x00, 0x00, segs.length :: segs.flatMap be32⟩,
          ⟨0x80, 0x07, 0x80, 0x00, digest⟩]).take 65)),
        [⟨0x80, 0x07, 0x00, 0x00, segs.length :: segs.flatMap be32⟩,
          ⟨0x80, 0x07, 0x80, 0x00, digest⟩]) ∧
    (getWalletExtendedPublicKey (some segs) device).1.isOk = true := by
  have hok := encodePathSegs_ok segs h2 hs
  refine ⟨?_, hok, ?_, ?_⟩
  · simp [signMessage, show 127 < segs.length by omega]
  · simp [signMessageHash, pathToBuffer, hok]
  · simp only [getWalletExtendedPublicKey, pathToBuffer, hok]
    rfl

set_option maxRecDepth 4000 in
/-- C10 witness: a 128-segment path makes signMessage fail with no frames sent
while pathToBuffer and signMessageHash accept it. -/
theorem signMessage_int8_overflow_witness :
    signMessage (some (List.replicate 128 0)) [] true (fun _ => []) =
      (.error .malformedPath, []) := by
  exact (signMessage_int8_overflow (List.replicate 128 0) [] [] true (fun _ => [])
    (by decide) (by decide) (by decide)).1

/-- C8: for every valid path and digest, signMessageHash performs no chunking:
exactly two transport exchanges, an init frame with ins 0x07 p1 0x00 carrying
the encoded path, then a final frame with ins 0x07 p1 0x80 carrying the entire
digest, and the result is the hex of the first 65 bytes of the second
response. -/
theorem signMessageHash_two_frames (segs digest : List Nat) (device : Device)
    (hn : segs.length ≤ 255) (hs : ∀ s ∈ segs, s < 2 ^ 32) :
    signMessageHash (some segs) digest device =
      (.ok (bytesToHex ((device [⟨0x80, 0x07, 0x00, 0x00, segs.length :: segs.flatMap be32⟩,
          ⟨0x80, 0x07, 0x80, 0x00, digest⟩]).take 65)),
        [⟨0x80, 0x07, 0x00, 0x00, segs.length :: segs.flatMap be32⟩,
          ⟨0x80, 0x07, 0x80, 0x00, digest⟩]) ∧
    (signMessageHash (some segs) digest device).2.length = 2 := by
  have hok := encodePathSegs_ok segs hn hs
  constructor
  · simp [signMessageHash, pathToBuffer, hok]
  · simp [signMessageHash, pathToBuffer, hok]

/-- C8 witness: a one-segment path and a 32-byte digest give exactly the two
documented frames. -/
theorem signMessageHash_two_frames_witness :
    signMessageHash (some [5]) (List.replicate 32 170) (fun _ => List.replicate 70 1) =
      (.ok (bytesToHex (List.replicate 65 1)),
        [⟨0x80, 0x07, 0x00, 0x00, [1, 0, 0, 0, 5]⟩,
          ⟨0x80, 0x07, 0x80, 0x00, List.replicate 32 170⟩]) := by
  have h := (signMessageHash_two_frames [5] (List.replicate 32 170)
    (fun _ => List.replicate 70 1) (by decide) (by decide)).1
  rw [h]
  rfl

/-- Joining the full 230-byte chunks of a buffer recovers its first 230 n
bytes. -/
theorem chunks_flatten (pre : List Nat) (n : Nat) (h : 230 * n ≤ pre.length) :
    (List.map (fun i => (pre.drop (i * 230)).take 230) (List.range n)).flatten =
      pre.take (230 * n) := by
  induction n with
  | zero => simp
  | succ k ih =>
    rw [List.range_succ, List.map_append, List.flatten_append]
    rw [ih (by omega)]
    simp only [List.map_cons, List.map_nil, List.flatten_cons, List.flatten_nil, List.append_nil]
    rw [show 230 * (k + 1) = 230 * k + 230 by ring, List.take_add, Nat.mul_comm k 230]

/-- C1: signMessage sends the init frame (ins 0x06, p1 0x00, display flag and
encoded path) exactly once, first; then one continuation frame (p1 0x01) of
exactly 230 bytes per full chunk of the magic-prefixed message, in order; then
exactly one final frame (p1 0x81) carrying the remaining length-mod-230 bytes
(empty when the length is an exact multiple of 230, and still sent); the
concatenated continuation and final payloads equal the prefixed message, and
the result is the hex of the first 65 bytes of the response to the final frame
only. -/
theorem signMessage_chunking (segs msg : List Nat) (displayHex : Bool) (device : Device)
    (hn : segs.length ≤ 127) (hs : ∀ s ∈ segs, s < 2 ^ 32) :
    signMessage (some segs) msg displayHex device =
      (.ok (bytesToHex ((device (signMsgTrace displayHex segs (magicBytes ++ msg))).take 65)),
        signMsgTrace displayHex segs (magicBytes ++ msg)) ∧
    magicBytes = magicString.toList.map Char.toNat ∧
    magicBytes.length = 15 ∧
    signMsgInitFrame displayHex segs =
      ⟨0x80, 0x06, 0x00, 0x00, (if displayHex then 1 else 0) :: segs.length :: segs.flatMap be32⟩ ∧
    (signMsgContFrames (magicBytes ++ msg)).length = (magicBytes ++ msg).length / 230 ∧
    (∀ fr ∈ signMsgContFrames (magicBytes ++ msg),
      fr.ins = 0x06 ∧ fr.p1 = 0x01 ∧ fr.data.length = 230) ∧
    (signMsgFinalFrame (magicBytes ++ msg)).ins = 0x06 ∧
    (signMsgFinalFrame (magicBytes ++ msg)).p1 = 0x81 ∧
    (signMsgFinalFrame (magicBytes ++ msg)).data.length = (magicBytes ++ msg).length % 230 ∧
    ((signMsgContFrames (magicBytes ++ msg)).map Frame.data).flatten ++
      (signMsgFinalFrame (magicBytes ++ msg)).data = magicBytes ++ msg := by
  have hif1 : ¬ (127 < segs.length) := by omega
  have hany := any_overflow_false segs hs
  refine ⟨?_, by decide, by decide, rfl, ?_, ?_, rfl, rfl, ?_, ?_⟩
  · simp [signMessage, hif1, hany]
    intro x hx
    have := hs x hx
    omega
  · simp [signMsgContFrames, maxApduSize]
  · intro fr hfr
    simp only [signMsgContFrames, maxApduSize, List.mem_map, List.mem_range] at hfr
    obtain ⟨i, hi, rfl⟩ := hfr
    refine ⟨rfl, rfl, ?_⟩
    simp only [List.length_take, List.length_drop]
    omega
  · simp only [signMsgFinalFrame, maxApduSize, List.length_take, List.length_drop]
    omega
  · have hfl : (signMsgContFrames (magicBytes ++ msg)).map Frame.data =
        List.map (fun i => ((magicBytes ++ msg).drop (i * 230)).take 230)
          (List.range ((magicBytes ++ msg).length / 230)) := by
      simp [signMsgContFrames, maxApduSize, List.map_map]
    rw [hfl, chunks_flatten _ _ (by omega)]
    have h1 : ((magicBytes ++ msg).drop ((magicBytes ++ msg).length / 230 * 230)).take 230 =
        (magicBytes ++ msg).drop ((magicBytes ++ msg).length / 230 * 230) :=
      List.take_of_length_le (by simp only [List.length_drop]; omega)
    show _ ++ ((magicBytes ++ msg).drop ((magicBytes ++ msg).length / 230 * 230)).take 230 = _
    rw [h1, Nat.mul_comm ((magicBytes ++ msg).length / 230) 230, List.take_append_drop]

set_option maxRecDepth 8000 in
/-- C1 witness: the 500-byte message of the specification example, prefixed to
515 bytes, yields exactly two 230-byte continuation frames and a 55-byte final
frame, and the signature is the hex of the first 65 response bytes. -/
theorem signMessage_chunking_witness :
    signMessage (some [0]) (List.replicate 500 1) false (fun _ => List.replicate 70 2) =
      (.ok (bytesToHex (List.replicate 65 2)),
        signMsgTrace false [0] (magicBytes ++ List.replicate 500 1)) ∧
    (signMsgContFrames (magicBytes ++ List.replicate 500 1)).length = 2 ∧
    (signMsgFinalFrame (magicBytes ++ List.replicate 500 1)).data.length = 55 := by
  obtain ⟨h1, _, _, _, h5, _, _, _, h9, _⟩ :=
    signMessage_chunking [0] (List.replicate 500 1) false (fun _ => List.replicate 70 2)
      (by decide) (by decide)
  refine ⟨?_, ?_, ?_⟩
  · rw [h1]; rfl
  · rw [h5]; simp; decide
  · rw [h9]; simp; decide

/-- C2 counterexample: a wallet-id reply of 3 bytes does not fail with
ResponseTooShortError (no such failure exists in the code); getWalletId
silently returns the 6-character hex of the truncated reply instead of the
64-character hex of 32 bytes. -/
theorem getWalletId_short_response_no_error :
    getWalletId shortIdDevice = ("0a0b0c", [walletIdFrame]) ∧
    (getWalletId shortIdDevice).1.length = 6 := by
  constructor <;> decide

/-- C2 amended: responses shorter than the layout requires are silently
truncated rather than rejected: getWalletId returns the hex of all available
bytes (two hex characters per byte, hence fewer than 64 characters), and
getWalletExtendedPublicKey never fails on any response, returning clamped
slices. -/
theorem shortResponse_silently_truncated (device : Device)
    (h : (device [walletIdFrame]).length < 32) :
    (getWalletId device).1 = bytesToHex (device [walletIdFrame]) ∧
    (getWalletId device).1.length = 2 * (device [walletIdFrame]).length ∧
    (∀ dev2 : Device, ((getWalletExtendedPublicKey (some []) dev2).1).isOk = true) := by
  have ht : (device [walletIdFrame]).take 32 = device [walletIdFrame] :=
    List.take_of_length_le (by omega)
  refine ⟨?_, ?_, ?_⟩
  · simp [getWalletId, ht]
  · simp [getWalletId, ht, bytesToHex_length]
  · intro dev2
    rfl

/-- C2 witness: a 2-byte reply is hex-encoded whole, with no failure. -/
theorem shortResponse_silently_truncated_witness :
    (getWalletId (fun _ => [1, 2])).1 = bytesToHex [1, 2] :=
  (shortResponse_silently_truncated (fun _ => [1, 2]) (by decide)).1

/-- C7 counterexample: on the specification example input (first reply
[1, 0, 3], second reply of 29 bytes then 0x00 0x90 0x00) the version is 1.0.3
but the hash has 29 characters, not 26: only the 3 trailing status bytes of
the 32-byte reply are stripped. -/
theorem getAppConfiguration_hash_26_false :
    (getAppConfiguration configExampleDevice).1.1 = "1.0.3" ∧
    (getAppConfiguration configExampleDevice).1.2.length = 29 ∧
    ¬ (getAppConfiguration configExampleDevice).1.2.length = 26 := by
  refine ⟨?_, ?_, ?_⟩ <;> decide

/-- The latin1 decoding has one character per byte. -/
theorem toLatin1_length (l : List Nat) : (toLatin1 l).length = l.length := by
  show (l.map Char.ofNat).length = l.length
  exact List.length_map l Char.ofNat

/-- C7 amended: getAppConfiguration issues two sub-requests (ins 0x00 then ins
0x09), returns the first three bytes of the first reply joined with dots as
the version, and the second reply with its last 3 status bytes stripped,
decoded as latin1 text, as the hash; a second reply of 29 bytes followed by
0x00 0x90 0x00 hence yields version 1.0.3 and a 29-character hash. -/
theorem getAppConfiguration_spec (device : Device) (a b c : Nat) (rest : List Nat)
    (h1 : device [configFrame1] = a :: b :: c :: rest) :
    getAppConfiguration device =
      ((toString a ++ "." ++ toString b ++ "." ++ toString c,
        toLatin1 ((device [configFrame1, configFrame2]).take
          ((device [configFrame1, configFrame2]).length - 3))), [configFrame1, configFrame2]) ∧
    (getAppConfiguration device).1.2.length = (device [configFrame1, configFrame2]).length - 3 := by
  constructor
  · simp [getAppConfiguration, h1, numOrUndefined]
  · simp [getAppConfiguration, toLatin1_length, List.length_take]

/-- C7 witness: with first reply [1, 0, 3] and a 32-byte second reply the
version is 1.0.3 and the hash has 29 characters. -/
theorem getAppConfiguration_spec_witness :
    (getAppConfiguration configExampleDevice).1.1 = "1.0.3" ∧
    (getAppConfiguration configExampleDevice).1.2.length = 29 := by
  obtain ⟨he, hl⟩ := getAppConfiguration_spec configExampleDevice 1 0 3 [] (by decide)
  constructor
  · rw [he]; decide
  · rw [hl]; decide

/-- The blake2b compression function returns 8 state words. -/
theorem blakeCompress_length (h m : List Nat) (t : Nat) (last : Bool) :
    (blakeCompress h m t last).length = 8 := by
  simp [blakeCompress]

/-- The blake2b block loop preserves the 8-word state shape. -/
theorem blake2bLoop_length (fuel : Nat) : ∀ (h msg : List Nat) (d : Nat), h.length = 8 →
    (blake2bLoop fuel h msg d).length = 8 := by
  induction fuel with
  | zero => intro h msg d hh; exact hh
  | succ f ih =>
    intro h msg d hh
    unfold blake2bLoop
    split
    · exact blakeCompress_length _ _ _ _
    · exact ih _ _ _ (blakeCompress_length _ _ _ _)

/-- Serializing state words yields 8 bytes per word. -/
theorem flatMap_le64bytes_length (l : List Nat) : (l.flatMap le64bytes).length = 8 * l.length := by
  induction l with
  | nil => rfl
  | cons w t ih => simp [List.flatMap_cons, le64bytes, ih]; omega

/-- blake2b returns exactly the requested number of bytes (up to 64). -/
theorem blake2b_length (outlen : Nat) (personal msg : List Nat) (h : outlen ≤ 64) :
    (blake2b outlen personal msg).length = outlen := by
  unfold blake2b
  rw [List.length_take, flatMap_le64bytes_length,
    blake2bLoop_length (msg.length / 128 + 1) (blake2bInit outlen personal) msg 0
      (by simp [blake2bInit])]
  omega

/-- The lock arg always has 20 bytes. -/
theorem lockArgOf_length (compressed : List Nat) : (lockArgOf compressed).length = 20 := by
  unfold lockArgOf
  rw [List.length_take, blake2b_length 32 _ _ (by omega)]
  decide

/-- The address script always has 54 bytes. -/
theorem addrContents_length (la : List Nat) (h : la.length = 20) :
    (addrContents la).length = 54 := by
  simp [addrContents, secpCodeHash, h]

/-- Output length of the 8-bit to 5-bit regrouping loop. -/
theorem bech32ConvertAux_length (l : List Nat) : ∀ value bits : Nat, bits < 5 →
    (bech32ConvertAux value bits l).length = (8 * l.length + bits + 4) / 5 := by
  induction l with
  | nil =>
    intro v b hb
    unfold bech32ConvertAux
    split <;> simp <;> omega
  | cons x t ih =>
    intro v b hb
    unfold bech32ConvertAux
    split
    · rw [List.length_cons, ih _ _ (by omega)]
      simp only [List.length_cons]
      omega
    · rw [List.length_cons, List.length_cons, ih _ _ (by omega)]
      simp only [List.length_cons]
      omega

/-- Output length of toWords. -/
theorem bech32ToWords_length (l : List Nat) :
    (bech32ToWords l).length = (8 * l.length + 4) / 5 := by
  have h := bech32ConvertAux_length l 0 0 (by omega)
  simpa [bech32ToWords] using h

/-- Both network prefixes have 3 characters. -/
theorem hrpOf_length (testnet : Bool) : (hrpOf testnet).length = 3 := by
  cases testnet <;> rfl

/-- A checksum always has 6 words. -/
theorem bech32CreateChecksum_length (c : Nat) (hrp : String) (w : List Nat) :
    (bech32CreateChecksum c hrp w).length = 6 := by
  simp [bech32CreateChecksum]

/-- Appending constructed strings concatenates their character lists. -/
theorem string_mk_append (a b : List Char) : String.mk a ++ String.mk b = String.mk (a ++ b) := rfl

/-- String append is associative. -/
theorem string_append_assoc (a b c : String) : a ++ b ++ c = a ++ (b ++ c) := by
  cases a with
  | mk xa =>
    cases b with
    | mk xb =>
      cases c with
      | mk xc =>
        rw [string_mk_append, string_mk_append, string_mk_append, string_mk_append,
          List.append_assoc]

/-- For a 20-byte lock arg the bech32m encoding always succeeds (97 characters,
far below the 1023 ceiling) and splits into prefix, separator, body and
checksum. -/
theorem encodeAddr_eq (testnet : Bool) (la : List Nat) (h : la.length = 20) :
    bech32mEncode (hrpOf testnet) (bech32ToWords (addrContents la)) BECH32_LIMIT =
      some (hrpOf testnet ++ "1" ++ addressBody la ++ addressChecksum testnet la) := by
  unfold bech32mEncode bech32GenericEncode
  rw [if_neg (by rw [bech32ToWords_length, addrContents_length la h, hrpOf_length]; decide)]
  rw [List.map_append, ← string_mk_append, string_append_assoc (hrpOf testnet ++ "1") _ _]
  rfl

/-- processPubKeyResponse never fails: the bech32m encoding of the 54-byte
script always fits the 1023 ceiling. -/
theorem processPubKeyResponse_eq (testnet : Bool) (response : List Nat) :
    processPubKeyResponse testnet response =
      .ok ⟨bytesToHex (extractPubKey response),
        bytesToHex (lockArgOf (compressPubKey (extractPubKey response))),
        hrpOf testnet ++ "1" ++ addressBody (lockArgOf (compressPubKey (extractPubKey response))) ++
          addressChecksum testnet (lockArgOf (compressPubKey (extractPubKey response)))⟩ := by
  simp only [processPubKeyResponse]
  rw [encodeAddr_eq testnet _ (lockArgOf_length _)]

/-- Reduction of getWalletPublicKey for a valid path. -/
theorem getWalletPublicKey_eq (segs : List Nat) (testnet : Bool) (device : Device)
    (hn : segs.length ≤ 255) (hs : ∀ s ∈ segs, s < 2 ^ 32) :
    getWalletPublicKey (some segs) testnet device =
      (processPubKeyResponse testnet (device [pubKeyFrame (segs.length :: segs.flatMap be32)]),
        [pubKeyFrame (segs.length :: segs.flatMap be32)]) := by
  have hok := encodePathSegs_ok segs hn hs
  simp [getWalletPublicKey, pathToBuffer, hok]

/-- A response whose length byte is 65 followed by a 65-byte key extracts that
key unchanged. -/
theorem extractPubKey_65 (key : List Nat) (h : key.length = 65) :
    extractPubKey (65 :: key) = key := by
  show ((65 :: key).drop 1).take ((65 :: key).getD 0 0) = key
  have h0 : (65 :: key).getD 0 0 = 65 := rfl
  rw [h0, List.drop_succ_cons, List.drop_zero]
  exact List.take_of_length_le (by omega)

/-- The cyclic Buffer.fill with a 32-byte source over 32 positions is the
source itself. -/
theorem bufferFillCyclic_id (l : List Nat) (h : l.length = 32) : bufferFillCyclic l 32 = l := by
  unfold bufferFillCyclic
  rw [if_neg (by cases l <;> simp_all)]
  apply List.ext_getElem
  · simp [h]
  · intro i h1 h2
    simp only [List.getElem_map, List.getElem_range]
    rw [h, Nat.mod_eq_of_lt (by simpa using h1), List.getD_eq_getElem]

/-- The parity test of the source (bitwise and with 1) agrees with the parity
test of the specification (mod 2). -/
theorem parity_and_eq_mod (n : Nat) :
    (if n &&& 1 = 1 then (0x03 : Nat) else 0x02) = (if n % 2 = 0 then 0x02 else 0x03) := by
  rcases Nat.mod_two_eq_zero_or_one n with h | h <;> simp [Nat.and_one_is_mod, h]

/-- For a 65-byte key the compression of the source is the parity byte of the
specification followed by the X coordinate. -/
theorem compressPubKey_65 (key : List Nat) (h : key.length = 65) :
    compressPubKey key =
      (if key.getD 64 0 % 2 = 0 then (0x02 : Nat) else 0x03) :: (key.drop 1).take 32 := by
  unfold compressPubKey
  rw [bufferFillCyclic_id _ (by simp only [List.length_take, List.length_drop]; omega)]
  rw [parity_and_eq_mod]

/-- The length of a constructed string is the length of its character list. -/
theorem string_mk_length (l : List Char) : (String.mk l).length = l.length := rfl

/-- The address body always has 87 characters. -/
theorem addressBody_length (la : List Nat) (h : la.length = 20) :
    (addressBody la).length = 87 := by
  show (List.map _ _).length = 87
  rw [List.length_map, bech32ToWords_length, addrContents_length la h]

/-- The address checksum always has 6 characters. -/
theorem addressChecksum_length (tn : Bool) (la : List Nat) :
    (addressChecksum tn la).length = 6 := by
  show (List.map _ _).length = 6
  rw [List.length_map, bech32CreateChecksum_length]

set_option maxRecDepth 100000 in
/-- C3 counterexample: a device reply carrying a 64-byte (not 65-byte) public
key does not make getWalletPublicKey fail: the code performs no length
validation (no InvalidPublicKeyError exists) and a full result including a
lock arg and an address is returned. -/
theorem getWalletPublicKey_no_key_validation :
    ∃ r : PubKeyResult, (getWalletPublicKey (some []) false shortKeyDevice).1 = .ok r ∧
      r.publicKey.length = 128 ∧ r.lockArg.length = 40 := by
  rw [getWalletPublicKey_eq [] false shortKeyDevice (by decide) (by decide),
    processPubKeyResponse_eq]
  refine ⟨_, rfl, ?_, ?_⟩
  · rw [bytesToHex_length]; decide
  · rw [bytesToHex_length, lockArgOf_length]

/-- C3 amended: getWalletPublicKey never validates the extracted key length:
for every valid path and every device response it returns a full result (a
40-hex-character lock arg and a 97-character address), and whenever the
extracted key is 64 bytes or shorter the parity byte silently becomes 0x02,
because the out-of-range read of byte 64 yields undefined, which behaves as 0
under the bitwise parity test. -/
theorem getWalletPublicKey_returns_ok_always (segs : List Nat) (testnet : Bool)
    (device : Device) (hn : segs.length ≤ 255) (hs : ∀ s ∈ segs, s < 2 ^ 32) :
    (∃ r : PubKeyResult, (getWalletPublicKey (some segs) testnet device).1 = .ok r ∧
      r.lockArg.length = 40 ∧ r.address.length = 97) ∧
    (∀ pk : List Nat, pk.length ≤ 64 → (compressPubKey pk).getD 0 0 = 0x02) := by
  constructor
  · rw [getWalletPublicKey_eq segs testnet device hn hs, processPubKeyResponse_eq]
    refine ⟨_, rfl, ?_, ?_⟩
    · rw [bytesToHex_length, lockArgOf_length]
    · rw [String.length_append, String.length_append, String.length_append,
        hrpOf_length, addressBody_length _ (lockArgOf_length _), addressChecksum_length]
      decide
  · intro pk hle
    unfold compressPubKey
    rw [List.getD_eq_default _ _ hle]
    rfl

/-- C3 amended witness: even an empty device reply produces a full result. -/
theorem getWalletPublicKey_returns_ok_always_witness :
    ∃ r : PubKeyResult, (getWalletPublicKey (some []) false (fun _ => [])).1 = .ok r ∧
      r.lockArg.length = 40 ∧ r.address.length = 97 :=
  (getWalletPublicKey_returns_ok_always [] false (fun _ => []) (by decide) (by decide)).1

/-- C4: for every 65-byte raw public key, getWalletPublicKey derives exactly
what the specification pipeline prescribes: parity byte from the low bit of
the last Y byte followed by the X coordinate, blake2b-256 personalized with
the ASCII bytes of ckb-default-hash, first 20 bytes as lock arg, the 54-byte
script 0x00 then the fixed code hash then 0x01 then the lock arg, encoded with
bech32m (constant 0x2bc830a3, not the bech32 constant 1) under the
1023-character ceiling with the network prefix. -/
theorem getWalletPublicKey_matches_spec (segs key : List Nat) (testnet : Bool) (device : Device)
    (hn : segs.length ≤ 255) (hs : ∀ s ∈ segs, s < 2 ^ 32) (hk : key.length = 65)
    (hd : device [pubKeyFrame (segs.length :: segs.flatMap be32)] = 65 :: key) :
    ∃ lockArg addr,
      specAddressDerive key testnet = some (lockArg, addr) ∧
      getWalletPublicKey (some segs) testnet device =
        (.ok ⟨bytesToHex key, bytesToHex lockArg, addr⟩,
          [pubKeyFrame (segs.length :: segs.flatMap be32)]) ∧
      lockArg = (blake2b 32 ckbPersonalization (compressPubKey key)).take 20 ∧
      ckbPersonalization = specPersonalString.toList.map Char.toNat ∧
      lockArg.length = 20 ∧ (addrContents lockArg).length = 54 ∧
      bech32mConst = 0x2bc830a3 ∧ bech32Const = 1 := by
  refine ⟨lockArgOf (compressPubKey key),
    hrpOf testnet ++ "1" ++ addressBody (lockArgOf (compressPubKey key)) ++
      addressChecksum testnet (lockArgOf (compressPubKey key)), ?_, ?_, rfl, by decide,
    lockArgOf_length _, addrContents_length _ (lockArgOf_length _), rfl, rfl⟩
  · have hpers : specPersonalString.toList.map Char.toNat = ckbPersonalization := by decide
    simp only [specAddressDerive, if_pos hk, hpers]
    rw [← compressPubKey_65 key hk]
    rw [show (0x00 :: secpCodeHash ++ [0x01] ++
      (blake2b 32 ckbPersonalization (compressPubKey key)).take 20) =
      addrContents (lockArgOf (compressPubKey key)) from rfl]
    rw [show bech32GenericEncode bech32mConst (hrpOf testnet)
      (bech32ToWords (addrContents (lockArgOf (compressPubKey key)))) 1023 =
      bech32mEncode (hrpOf testnet)
        (bech32ToWords (addrContents (lockArgOf (compressPubKey key)))) BECH32_LIMIT from rfl]
    rw [encodeAddr_eq testnet _ (lockArgOf_length _)]
    rfl
  · rw [getWalletPublicKey_eq segs testnet device hn hs, hd, processPubKeyResponse_eq,
      extractPubKey_65 key hk]

set_option maxRecDepth 8000 in
/-- C4 witness: the all-zero 65-byte key on the empty path. -/
theorem getWalletPublicKey_matches_spec_witness :
    ∃ lockArg addr,
      specAddressDerive (0x04 :: List.replicate 64 0) true = some (lockArg, addr) ∧
      getWalletPublicKey (some []) true allZeroKeyDevice =
        (.ok ⟨bytesToHex (0x04 :: List.replicate 64 0), bytesToHex lockArg, addr⟩,
          [pubKeyFrame [0]]) ∧
      lockArg = (blake2b 32 ckbPersonalization
        (compressPubKey (0x04 :: List.replicate 64 0))).take 20 ∧
      ckbPersonalization = specPersonalString.toList.map Char.toNat ∧
      lockArg.length = 20 ∧ (addrContents lockArg).length = 54 ∧
      bech32mConst = 0x2bc830a3 ∧ bech32Const = 1 :=
  getWalletPublicKey_matches_spec [] (0x04 :: List.replicate 64 0) true allZeroKeyDevice
    (by decide) (by decide) (by decide) rfl

/-- C9: the lock arg and address computed by getWalletPublicKey depend only on
bytes 1 to 32 (the X coordinate) and the low bit of byte 64 of the 65-byte raw
key: two responses agreeing there (and on the network flag) give identical
lock arg and address regardless of the leading byte and the other Y bytes. -/
theorem pubkey_depends_only_on_x_and_parity (segs key1 key2 : List Nat) (testnet : Bool)
    (dev1 dev2 : Device) (hn : segs.length ≤ 255) (hs : ∀ s ∈ segs, s < 2 ^ 32)
    (h1 : key1.length = 65) (h2 : key2.length = 65)
    (hx : (key1.drop 1).take 32 = (key2.drop 1).take 32)
    (hp : key1.getD 64 0 &&& 1 = key2.getD 64 0 &&& 1)
    (hd1 : dev1 [pubKeyFrame (segs.length :: segs.flatMap be32)] = 65 :: key1)
    (hd2 : dev2 [pubKeyFrame (segs.length :: segs.flatMap be32)] = 65 :: key2) :
    ∃ r1 r2 : PubKeyResult,
      (getWalletPublicKey (some segs) testnet dev1).1 = .ok r1 ∧
      (getWalletPublicKey (some segs) testnet dev2).1 = .ok r2 ∧
      r1.lockArg = r2.lockArg ∧ r1.address = r2.address := by
  have hcomp : compressPubKey key1 = compressPubKey key2 := by
    unfold compressPubKey
    rw [hx, hp]
  rw [getWalletPublicKey_eq segs testnet dev1 hn hs, getWalletPublicKey_eq segs testnet dev2 hn hs,
    hd1, hd2, processPubKeyResponse_eq, processPubKeyResponse_eq, extractPubKey_65 key1 h1,
    extractPubKey_65 key2 h2, hcomp]
  exact ⟨_, _, rfl, rfl, rfl, rfl⟩

set_option maxRecDepth 8000 in
/-- C9 witness: two concrete keys agreeing only on X and the parity bit give
the same lock arg and address. -/
theorem pubkey_depends_only_on_x_and_parity_witness :
    ∃ r1 r2 : PubKeyResult,
      (getWalletPublicKey (some [44]) false (fun _ => 65 :: c9Key1)).1 = .ok r1 ∧
      (getWalletPublicKey (some [44]) false (fun _ => 65 :: c9Key2)).1 = .ok r2 ∧
      r1.lockArg = r2.lockArg ∧ r1.address = r2.address :=
  pubkey_depends_only_on_x_and_parity [44] c9Key1 c9Key2 false (fun _ => 65 :: c9Key1)
    (fun _ => 65 :: c9Key2) (by decide) (by decide) (by decide) (by decide) (by decide)
    (by decide) rfl rfl

set_option maxRecDepth 100000 in
/-- C6 counterexample: for the all-zero 65-byte key the testnet and mainnet
results have identical lock args, but the addresses do NOT agree once the
3-character prefix is removed: the 6 trailing checksum characters also differ,
because the bech32m checksum covers the human-readable prefix. -/
theorem address_checksum_differs_across_networks :
    ((getWalletPublicKey (some []) true allZeroKeyDevice).1.toOption.map PubKeyResult.lockArg =
      (getWalletPublicKey (some []) false allZeroKeyDevice).1.toOption.map PubKeyResult.lockArg) ∧
    ¬ ((getWalletPublicKey (some []) true allZeroKeyDevice).1.toOption.map
        (fun r => r.address.drop 3) =
      (getWalletPublicKey (some []) false allZeroKeyDevice).1.toOption.map
        (fun r => r.address.drop 3)) := by
  constructor
  · rfl
  · decide

/-- C6 amended: derivation is a pure function of the response and network flag
(two runs on the same response give identical results), the lock arg is
network-independent, and for the same key the testnet and mainnet addresses
share the 87-character script body, differing in the 3-character prefix (ckt
versus ckb) and in the 6 trailing checksum characters, which depend on the
prefix. -/
theorem address_network_structure (segs key : List Nat) (dev1 dev2 : Device)
    (hn : segs.length ≤ 255) (hs : ∀ s ∈ segs, s < 2 ^ 32) (hk : key.length = 65)
    (hd1 : dev1 [pubKeyFrame (segs.length :: segs.flatMap be32)] = 65 :: key)
    (hd2 : dev2 [pubKeyFrame (segs.length :: segs.flatMap be32)] = 65 :: key) :
    ∃ r1 r2 : PubKeyResult,
      (getWalletPublicKey (some segs) true dev1).1 = .ok r1 ∧
      (getWalletPublicKey (some segs) false dev2).1 = .ok r2 ∧
      r1.lockArg = r2.lockArg ∧
      r1.address = hrpOf true ++ "1" ++ addressBody (lockArgOf (compressPubKey key)) ++
        addressChecksum true (lockArgOf (compressPubKey key)) ∧
      r2.address = hrpOf false ++ "1" ++ addressBody (lockArgOf (compressPubKey key)) ++
        addressChecksum false (lockArgOf (compressPubKey key)) ∧
      hrpOf true = "ckt" ∧ hrpOf false = "ckb" ∧
      (addressChecksum true (lockArgOf (compressPubKey key))).length = 6 ∧
      (addressChecksum false (lockArgOf (compressPubKey key))).length = 6 ∧
      (∀ dev3 : Device, dev3 [pubKeyFrame (segs.length :: segs.flatMap be32)] = 65 :: key →
        getWalletPublicKey (some segs) true dev3 = getWalletPublicKey (some segs) true dev1) := by
  rw [getWalletPublicKey_eq segs true dev1 hn hs, getWalletPublicKey_eq segs false dev2 hn hs,
    hd1, hd2, processPubKeyResponse_eq, processPubKeyResponse_eq, extractPubKey_65 key hk]
  refine ⟨_, _, rfl, rfl, rfl, rfl, rfl, rfl, rfl, addressChecksum_length _ _,
    addressChecksum_length _ _, ?_⟩
  intro dev3 hd3
  rw [getWalletPublicKey_eq segs true dev3 hn hs, hd3, processPubKeyResponse_eq,
    extractPubKey_65 key hk]

set_option maxRecDepth 8000 in
/-- C6 amended witness: the all-zero key on the empty path. -/
theorem address_network_structure_witness :
    ∃ r1 r2 : PubKeyResult,
      (getWalletPublicKey (some []) true allZeroKeyDevice).1 = .ok r1 ∧
      (getWalletPublicKey (some []) false allZeroKeyDevice).1 = .ok r2 ∧
      r1.lockArg = r2.lockArg ∧
      r1.address = hrpOf true ++ "1" ++
        addressBody (lockArgOf (compressPubKey (0x04 :: List.replicate 64 0))) ++
        addressChecksum true (lockArgOf (compressPubKey (0x04 :: List.replicate 64 0))) ∧
      r2.address = hrpOf false ++ "1" ++
        addressBody (lockArgOf (compressPubKey (0x04 :: List.replicate 64 0))) ++
        addressChecksum false (lockArgOf (compressPubKey (0x04 :: List.replicate 64 0))) ∧
      hrpOf true = "ckt" ∧ hrpOf false = "ckb" ∧
      (addressChecksum true (lockArgOf (compressPubKey (0x04 :: List.replicate 64 0)))).length = 6 ∧
      (addressChecksum false (lockArgOf (compressPubKey (0x04 :: List.replicate 64 0)))).length = 6 ∧
      (∀ dev3 : Device, dev3 [pubKeyFrame [0]] = 65 :: 0x04 :: List.replicate 64 0 →
        getWalletPublicKey (some []) true dev3 = getWalletPublicKey (some []) true allZeroKeyDevice) :=
  address_network_structure [] (0x04 :: List.replicate 64 0) allZeroKeyDevice allZeroKeyDevice
    (by decide) (by decide) (by decide) rfl rfl
